import Mathlib

/-- Damping coefficient from objects.py (`FRICTION = 0.1`). -/
def FRICTION : ℚ := 1 / 10

/-- A 2-D vector, embedding `pygame.math.Vector2` with exact coordinates. -/
structure Vec2 where
  x : ℚ
  y : ℚ
deriving DecidableEq, Repr

/-- Coordinate coercion of `pygame.Rect`: the Rect stores C ints, so an
assigned float is truncated toward zero (a C `(int)` cast). -/
def truncQ (q : ℚ) : ℤ := if q < 0 then -⌊-q⌋ else ⌊q⌋

/-- The mutable state of a `Player` sprite that the simulation step touches:
position, velocity, per-tick acceleration, and the bounding box top-left,
the latter held as the integer pair a `pygame.Rect` stores. -/
structure Player where
  pos : Vec2
  vel : Vec2
  acc : Vec2
  rect_topleft : ℤ × ℤ
deriving DecidableEq, Repr

/-- `Player.update` from objects.py: build the force vector from the action
list (LEFT, RIGHT, UP, DOWN applied in that order), set
`acc = 0 + (force + -(vel * FRICTION))`, then `vel += acc`, `pos += vel`,
and reposition the bounding box's top-left at the new position, truncated
to the integers the Rect stores. -/
def Player.update (p : Player) (actions : List String) : Player :=
  let force0 : Vec2 := ⟨0, 0⟩
  let force1 : Vec2 := if "LEFT" ∈ actions then ⟨force0.x + -1, force0.y⟩ else force0
  let force2 : Vec2 := if "RIGHT" ∈ actions then ⟨force1.x + 1, force1.y⟩ else force1
  let force3 : Vec2 := if "UP" ∈ actions then ⟨force2.x, force2.y + -1⟩ else force2
  let force4 : Vec2 := if "DOWN" ∈ actions then ⟨force3.x, force3.y + 1⟩ else force3
  let acc : Vec2 := ⟨0 + (force4.x + -(p.vel.x * FRICTION)), 0 + (force4.y + -(p.vel.y * FRICTION))⟩
  let vel : Vec2 := ⟨p.vel.x + acc.x, p.vel.y + acc.y⟩
  let pos : Vec2 := ⟨p.pos.x + vel.x, p.pos.y + vel.y⟩
  { pos := pos, vel := vel, acc := acc, rect_topleft := (truncQ pos.x, truncQ pos.y) }

/-- A `pygame.Rect`: integer left/top corner plus width and height.
Derived edges and centers follow pygame (centers use integer halving). -/
structure Rect where
  left : ℤ
  top : ℤ
  width : ℤ
  height : ℤ
deriving DecidableEq, Repr

def Rect.right (r : Rect) : ℤ := r.left + r.width

def Rect.bottom (r : Rect) : ℤ := r.top + r.height

def Rect.centerx (r : Rect) : ℤ := r.left + r.width / 2

def Rect.centery (r : Rect) : ℤ := r.top + r.height / 2

/-- The Liang-Barsky clipping loop of `segment_check`: fold over the four
`(p, q, index)` side tuples, maintaining entry parameter `t0`, exit
parameter `t1` and the index of the side whose ratio last tightened `t0`;
`none` models the early `return False` paths. -/
def lbLoop : List (ℚ × ℚ × ℤ) → ℚ → ℚ → ℤ → Option (ℚ × ℚ × ℤ)
  | [], t0, t1, side => some (t0, t1, side)
  | (p, q, i) :: rest, t0, t1, side =>
    if p = 0 then
      if q < 0 then none else lbLoop rest t0 t1 side
    else if p < 0 then
      let r := q / p
      if r > t1 then none
      else if r > t0 then lbLoop rest r t1 i
      else lbLoop rest t0 t1 side
    else
      let r := q / p
      if r < t0 then none
      else if r < t1 then lbLoop rest t0 r side
      else lbLoop rest t0 t1 side

/-- `segment_check` from objects.py: Liang-Barsky test of the directed
segment `start → end` against `box`; returns (hit?, intersection point,
side index), with side `-1` when the origin is already inside the box. -/
def segment_check (s e : ℚ × ℚ) (box : Rect) : Bool × (ℚ × ℚ) × ℤ :=
  let deltaX := e.1 - s.1
  let deltaY := e.2 - s.2
  match lbLoop [(-deltaX, s.1 - (box.left : ℚ), 0),
                (deltaX, (box.right : ℚ) - s.1, 1),
                (-deltaY, s.2 - (box.top : ℚ), 2),
                (deltaY, (box.bottom : ℚ) - s.2, 3)] 0 1 (-1) with
  | none => (false, (0, 0), -1)
  | some (t0, _, side) => (true, (s.1 + t0 * deltaX, s.2 + t0 * deltaY), side)

/-- `static_body_check` from objects.py: compare the per-axis gaps between
the two boxes' centers and resolve along the axis of smaller gap magnitude,
picking the side from the sign of the center delta. -/
def static_body_check (box1 box2 : Rect) : Bool × (ℚ × ℚ) × ℤ :=
  let delta_x : ℚ := (box2.centerx : ℚ) - (box1.centerx : ℚ)
  let gap_x : ℚ := |delta_x| - (box1.width : ℚ) / 2 - (box2.width : ℚ) / 2
  let delta_y : ℚ := (box2.centery : ℚ) - (box1.centery : ℚ)
  let gap_y : ℚ := |delta_y| - (box1.height : ℚ) / 2 - (box2.height : ℚ) / 2
  if |gap_x| > |gap_y| then
    if delta_y < 0 then (true, ((box1.left : ℚ), (box2.bottom : ℚ)), 2)
    else (true, ((box1.left : ℚ), (box2.top : ℚ) - (box1.height : ℚ) - 1), 3)
  else
    if delta_x < 0 then (true, ((box1.right : ℚ), (box1.top : ℚ)), 0)
    else (true, ((box2.left : ℚ) - (box1.width : ℚ), (box1.top : ℚ)), 1)

def restingPlayer : Player := ⟨⟨130, 100⟩, ⟨0, 0⟩, ⟨0, 0⟩, (130, 100)⟩

def LENGTH_HEADER : ℕ := 8

/-- ASCII decimal digit test (codes 48-57). -/
def isDigitB (b : ℕ) : Bool := 48 ≤ b && b ≤ 57

/-- ASCII whitespace as stripped by Python `int()`. -/
def isSpaceB (b : ℕ) : Bool := b == 32 || b == 9 || b == 10 || b == 13 || b == 11 || b == 12

/-- Decimal digits of `n`, least significant first (empty for 0). -/
def natDigitsRev : ℕ → List ℕ
  | 0 => []
  | n + 1 => (n + 1) % 10 :: natDigitsRev ((n + 1) / 10)
decreasing_by exact Nat.div_lt_self (Nat.succ_pos n) (by norm_num)

/-- Python `str(n)` for a natural number, as ASCII codes. -/
def strNat (n : ℕ) : List ℕ := if n = 0 then [48] else ((natDigitsRev n).reverse.map (· + 48))

/-- Python `str.zfill(w)`: left-pad with ASCII zeros up to width `w`. -/
def zfill (w : ℕ) (s : List ℕ) : List ℕ := List.replicate (w - s.length) 48 ++ s

/-- The 8-byte length header `str(n).zfill(8)` written by `send_message`. -/
def headerBytes (n : ℕ) : List ℕ := zfill LENGTH_HEADER (strNat n)

/-- Strip leading and trailing ASCII whitespace, as Python `int()` does. -/
def pyStripSpaces (s : List ℕ) : List ℕ :=
  ((s.dropWhile isSpaceB).reverse.dropWhile isSpaceB).reverse

/-- After an initial digit, Python integer literals allow digits and single
underscores that must be followed by a digit. -/
def digitsUndTail : List ℕ → Bool
  | [] => true
  | 95 :: b :: rest => isDigitB b && digitsUndTail rest
  | b :: rest => isDigitB b && digitsUndTail rest

/-- A valid unsigned decimal numeral for Python `int()`: nonempty, starts
with a digit, then digits with well-placed underscores. -/
def validNum : List ℕ → Bool
  | [] => false
  | b :: rest => isDigitB b && digitsUndTail rest

/-- Value of a decimal numeral (underscores dropped). -/
def numVal (s : List ℕ) : ℕ :=
  (s.filter (fun b => b != 95)).foldl (fun a b => a * 10 + (b - 48)) 0

def parseUInt (s : List ℕ) : Option ℕ :=
  if validNum s then some (numVal s) else none

/-- Python `int(bytes)`: strip whitespace, optional sign, decimal numeral;
`none` models the `ValueError` raised on malformed input. -/
def pyInt (s : List ℕ) : Option ℤ :=
  match pyStripSpaces s with
  | 43 :: rest => (parseUInt rest).map (fun n => (n : ℤ))
  | 45 :: rest => (parseUInt rest).map (fun n => -(n : ℤ))
  | rest => (parseUInt rest).map (fun n => (n : ℤ))

/-- UTF-8 continuation byte test. -/
def isContB (b : ℕ) : Bool := 128 ≤ b && b < 192

/-- A Unicode scalar value, i.e. a code point a Python `str` may hold. -/
def ValidScalar (c : ℕ) : Prop := c < 55296 ∨ (57343 < c ∧ c < 1114112)

instance (c : ℕ) : Decidable (ValidScalar c) := by
  unfold ValidScalar
  infer_instance

/-- UTF-8 encoding of one code point (`str.encode` on one character). -/
def utf8EncodeChar (c : ℕ) : List ℕ :=
  if c < 128 then [c]
  else if c < 2048 then [192 + c / 64, 128 + c % 64]
  else if c < 65536 then [224 + c / 4096, 128 + c / 64 % 64, 128 + c % 64]
  else [240 + c / 262144, 128 + c / 4096 % 64, 128 + c / 64 % 64, 128 + c % 64]

/-- UTF-8 encoding of a code-point string (`str.encode`). -/
def utf8Encode : List ℕ → List ℕ
  | [] => []
  | c :: rest => utf8EncodeChar c ++ utf8Encode rest

/-- One step of strict UTF-8 decoding: decode the first scalar of the byte
string and return it with the remaining bytes; `none` on malformed input
(stray continuation byte, overlong form, surrogate, out of range, or a
truncated sequence). -/
def utf8DecodeStep : List ℕ → Option (ℕ × List ℕ)
  | [] => none
  | b :: rest =>
    if b < 128 then some (b, rest)
    else if b < 194 then none
    else if b < 224 then
      match rest with
      | b1 :: rest1 =>
        if isContB b1 then some ((b - 192) * 64 + (b1 - 128), rest1) else none
      | [] => none
    else if b < 240 then
      match rest with
      | b1 :: b2 :: rest2 =>
        if isContB b1 && isContB b2 then
          let c := (b - 224) * 4096 + (b1 - 128) * 64 + (b2 - 128)
          if c < 2048 || (55296 ≤ c && c ≤ 57343) then none
          else some (c, rest2)
        else none
      | _ => none
    else if b < 245 then
      match rest with
      | b1 :: b2 :: b3 :: rest3 =>
        if isContB b1 && isContB b2 && isContB b3 then
          let c := (b - 240) * 262144 + (b1 - 128) * 4096 + (b2 - 128) * 64 + (b3 - 128)
          if c < 65536 || 1114111 < c then none
          else some (c, rest3)
        else none
      | _ => none
    else none

/-- Strict UTF-8 decoding, driven by a fuel counter; since every step of
`utf8DecodeStep` consumes at least one byte, fuel equal to the byte count
(as supplied by `utf8Decode`) always suffices. -/
def utf8DecodeFuel : ℕ → List ℕ → Option (List ℕ)
  | _, [] => some []
  | 0, _ :: _ => none
  | fuel + 1, b :: rest =>
    match utf8DecodeStep (b :: rest) with
    | none => none
    | some (c, rest1) => (utf8DecodeFuel fuel rest1).map (c :: ·)

/-- Strict UTF-8 decoding of a byte string (`bytes.decode`); `none` models
the `UnicodeDecodeError` raised on malformed input. -/
def utf8Decode (l : List ℕ) : Option (List ℕ) := utf8DecodeFuel l.length l

/-- Python exceptions that the framing layer can meet. -/
inductive PyErr where
  | connectionReset
  | valueError
deriving DecidableEq, Repr

/-- One endpoint's view of a stream socket: the bytes currently readable,
and whether the peer resets the connection once they are exhausted
(`resetAfter = false` means reads past the end see a clean end of stream). -/
structure Chan where
  data : List ℕ
  resetAfter : Bool
deriving DecidableEq, Repr

/-- `socket.recv(k)`: a negative count raises `ValueError`; on a reset
connection with nothing buffered it raises `ConnectionResetError`;
otherwise it returns up to `k` bytes (a short read when fewer are
available). -/
def Chan.recv (c : Chan) (k : ℤ) : Except PyErr (List ℕ × Chan) :=
  if k < 0 then .error .valueError
  else if c.data = [] && c.resetAfter then .error .connectionReset
  else .ok (c.data.take k.toNat, ⟨c.data.drop k.toNat, c.resetAfter⟩)

/-- `send_message` from protocol.py: UTF-8 encode the string, prepend
`str(len(data)).zfill(8)` (itself encoded), and write the result. -/
def send_message (json_data : List ℕ) : List ℕ :=
  let data := utf8Encode json_data
  let data_length := data.length
  utf8Encode (zfill LENGTH_HEADER (strNat data_length)) ++ data

/-- The byte string `json.dumps(["QUIT"])` = `["QUIT"]` that
`receive_message` returns on a handled failure, as code points. -/
def QUIT_SIGNAL : List ℕ := [91, 34, 81, 85, 73, 84, 34, 93]

/-- `receive_message` from protocol.py: read 8 header bytes (a reset there
is caught and yields the QUIT signal), parse them with `int` (failure
caught), read that many payload bytes (`ValueError` from a negative count
caught, a reset NOT caught), and UTF-8 decode (failure caught, since
`UnicodeDecodeError` is a `ValueError`). -/
def receive_message (c : Chan) : Except PyErr (List ℕ) :=
  match c.recv 8 with
  | .error .connectionReset => .ok QUIT_SIGNAL
  | .error e => .error e
  | .ok (data_length_bytes, c1) =>
    match pyInt data_length_bytes with
    | none => .ok QUIT_SIGNAL
    | some data_length =>
      match c1.recv data_length with
      | .error .valueError => .ok QUIT_SIGNAL
      | .error .connectionReset => .error .connectionReset
      | .ok (data, _) =>
        match utf8Decode data with
        | none => .ok QUIT_SIGNAL
        | some s => .ok s

/-- A string literal inside a JSON dump (no escaping needed for the
plain ASCII intent words this wire carries). -/
def jsonStringLit (s : List ℕ) : List ℕ := 34 :: (s ++ [34])

/-- `json.dumps` of a list of plain ASCII strings, with the default
`", "` separator, as code points. -/
def jsonDumpsStrList : List (List ℕ) → List ℕ
  | [] => [91, 93]
  | x :: xs => [91] ++ jsonStringLit x
      ++ xs.foldr (fun s acc => [44, 32] ++ jsonStringLit s ++ acc) [] ++ [93]

/-- `get_input` from server.py over a snapshot of the roster. Each entry
pairs an identity with the message buffered on its connection (`none` when
`select` reports nothing readable). Returns the surviving roster, the
per-identity input lists (empty for identities with nothing buffered), and
for each quitting identity the acknowledgement bytes written before its
connection is closed and its entry deleted. -/
def get_input :
    List (ℕ × Option (List String)) →
      List (ℕ × Option (List String)) × List (ℕ × List String) × List (ℕ × List ℕ)
  | [] => ([], [], [])
  | (client_id, buffered) :: rest =>
    let r := get_input rest
    match buffered with
    | some message =>
      if "QUIT" ∈ message then
        (r.1, r.2.1, (client_id, send_message [81, 85, 73, 84]) :: r.2.2)
      else
        ((client_id, some message) :: r.1, (client_id, message) :: r.2.1, r.2.2)
    | none => ((client_id, none) :: r.1, (client_id, []) :: r.2.1, r.2.2)

/-- Whether a buffered message carries the disconnect intent. -/
def hasQuitMsg : Option (List String) → Bool
  | some m => "QUIT" ∈ m
  | none => false

/-- Lowercase hex digit character for a value below 16. -/
def hexChar (d : ℕ) : ℕ := if d < 10 then 48 + d else 87 + d

/-- Hex digit characters of `n`, least significant first (empty for 0). -/
def hexDigitsRev : ℕ → List ℕ
  | 0 => []
  | n + 1 => hexChar ((n + 1) % 16) :: hexDigitsRev ((n + 1) / 16)
decreasing_by exact Nat.div_lt_self (Nat.succ_pos n) (by norm_num)

/-- Python `hex(v)`: optional minus sign, `0x`, then the hex digits of the
absolute value. -/
def pyHex (v : ℤ) : List ℕ :=
  (if v < 0 then [45] else []) ++ [48, 120]
    ++ (if v.natAbs = 0 then [48] else (hexDigitsRev v.natAbs).reverse)

/-- Clamp a (possibly negative) Python slice index to `[0, len]`. -/
def pyIndex (len : ℕ) (i : ℤ) : ℕ := if i < 0 then ((len : ℤ) + i).toNat else min i.toNat len

/-- Python `s[i:]`. -/
def pySliceFrom (s : List ℕ) (i : ℤ) : List ℕ := s.drop (pyIndex s.length i)

/-- Python `s[i:j]`. -/
def pySlice (s : List ℕ) (i j : ℤ) : List ℕ :=
  (s.take (pyIndex s.length j)).drop (pyIndex s.length i)

/-- ASCII hex digit test (0-9, a-f, A-F). -/
def isHexDigitB (b : ℕ) : Bool := (48 ≤ b && b ≤ 57) || (97 ≤ b && b ≤ 102) || (65 ≤ b && b ≤ 70)

/-- Value of an ASCII hex digit. -/
def hexVal (b : ℕ) : ℕ := if b ≤ 57 then b - 48 else if b ≤ 70 then b - 55 else b - 87

/-- Drop a leading `0x`/`0X`, as `int(_, 16)` accepts. -/
def strip0x : List ℕ → List ℕ
  | 48 :: 120 :: rest => rest
  | 48 :: 88 :: rest => rest
  | s => s

def parseHexDigits (s : List ℕ) : Option ℕ :=
  if s ≠ [] ∧ s.all isHexDigitB then some (s.foldl (fun a b => a * 16 + hexVal b) 0) else none

/-- Python `int(s, 16)`: strip whitespace, optional sign, optional `0x`
prefix, hex digits; `none` models the `ValueError` on malformed input. -/
def int16 (s : List ℕ) : Option ℤ :=
  match pyStripSpaces s with
  | 43 :: rest => (parseHexDigits (strip0x rest)).map (fun n => (n : ℤ))
  | 45 :: rest => (parseHexDigits (strip0x rest)).map (fun n => -(n : ℤ))
  | rest => (parseHexDigits (strip0x rest)).map (fun n => (n : ℤ))

/-- `strToRGB` from server.py, applied to the value of `hash(string)`:
take `hexa = hex(hash)`, and parse `hexa[-2:]`, `hexa[-4:-2]`, `hexa[-6:-4]`
as base-16 integers; `none` models the `ValueError` raised when a slice
catches the sign or the `0x` prefix. -/
def strToRGB (v : ℤ) : Option (ℤ × ℤ × ℤ) :=
  let hexa := pyHex v
  match int16 (pySliceFrom hexa (-2)), int16 (pySlice hexa (-4) (-2)),
      int16 (pySlice hexa (-6) (-4)) with
  | some r, some g, some b => some (r, g, b)
  | _, _, _ => none

/-- The color of an identity string under a fixed (per-process) string
hash: the opaque-hash reading of `strToRGB(string)`. -/
def strToRGBofId (hashFn : List ℕ → ℤ) (s : List ℕ) : Option (ℤ × ℤ × ℤ) :=
  strToRGB (hashFn s)

/-! ## Theorems -/

/-!
Verification of the Synced-Pygame core: message framing, server input
collection, the physics step, and the collision engine, shallowly embedded
in Lean. Numeric state uses exact rationals in place of IEEE doubles;
byte streams are lists of naturals; Python exceptions become `Except`.
-/

/-! ## Entity model and simulation step (src/objects.py) -/

/-! ## Collision engine (src/objects.py) -/

/-- Claim C2, amended: one simulation step computes, in order, force x =
(+1 if RIGHT) + (-1 if LEFT) and force y = (+1 if DOWN) + (-1 if UP);
acceleration = force - velocity * FRICTION; new velocity = velocity +
acceleration; new position = position + new velocity; and the bounding
box's top-left is set to the new position truncated componentwise to the
integers the `pygame.Rect` stores. -/
theorem player_update_step (p : Player) (a : List String) :
    (p.update a).acc.x = ((if "RIGHT" ∈ a then (1 : ℚ) else 0) + (if "LEFT" ∈ a then (-1 : ℚ) else 0)) - p.vel.x * FRICTION ∧
    (p.update a).acc.y = ((if "DOWN" ∈ a then (1 : ℚ) else 0) + (if "UP" ∈ a then (-1 : ℚ) else 0)) - p.vel.y * FRICTION ∧
    (p.update a).vel.x = p.vel.x + (p.update a).acc.x ∧
    (p.update a).vel.y = p.vel.y + (p.update a).acc.y ∧
    (p.update a).pos.x = p.pos.x + (p.update a).vel.x ∧
    (p.update a).pos.y = p.pos.y + (p.update a).vel.y ∧
    (p.update a).rect_topleft = (truncQ (p.update a).pos.x, truncQ (p.update a).pos.y) := by
  refine ⟨?_, ?_, ?_, ?_, ?_, ?_, ?_⟩ <;>
    simp only [Player.update, FRICTION] <;> split_ifs <;> norm_num <;> ring

/-- Claim C2, counterexample: the bounding box's top-left is NOT set to the
exact new position. A player at (0,0) with velocity (1/2, 0) and no input
moves to x = 9/20, but the stored Rect coordinate is the truncated 0, as
`pygame.Rect` keeps integers. -/
theorem player_update_rect_not_exact_pos :
    ¬ (((Player.update ⟨⟨0, 0⟩, ⟨1 / 2, 0⟩, ⟨0, 0⟩, (0, 0)⟩ []).rect_topleft.1 : ℚ)
          = (Player.update ⟨⟨0, 0⟩, ⟨1 / 2, 0⟩, ⟨0, 0⟩, (0, 0)⟩ []).pos.x) := by
  have h920 : truncQ (9 / 20 : ℚ) = 0 := by
    rw [truncQ, if_neg (by norm_num), Int.floor_eq_iff]
    norm_num
  have hpos : (Player.update ⟨⟨0, 0⟩, ⟨1 / 2, 0⟩, ⟨0, 0⟩, (0, 0)⟩ []).pos.x = 9 / 20 := by
    norm_num [Player.update, FRICTION]
  have hrect : (Player.update ⟨⟨0, 0⟩, ⟨1 / 2, 0⟩, ⟨0, 0⟩, (0, 0)⟩ []).rect_topleft.1 = 0 := by
    norm_num [Player.update, FRICTION, h920]
  rw [hpos, hrect]
  norm_num

/-- Claim C3, counterexample: on the segment (0,50)-(100,50) against the
box with left 40, top 0, right 60, bottom 100, `segment_check` does NOT
report side index 1 ("left" under the spec's 0 right / 1 left mapping). -/
theorem segment_check_box_left_entry_not_side_one :
    (segment_check (0, 50) (100, 50) ⟨40, 0, 20, 100⟩).2.2 ≠ 1 := by
  norm_num [segment_check, lbLoop, Rect.right, Rect.bottom]

/-- Claim C3, amended: on that segment and box, `segment_check` reports an
intersection at point (40,50) — the geometric entry through the box's left
edge — but records hit-side index 0, the index of the p/q pair that clips
against the box's left edge, which the code's own comment labels "right". -/
theorem segment_check_box_left_entry :
    segment_check (0, 50) (100, 50) ⟨40, 0, 20, 100⟩ = (true, (40, 50), 0) := by
  norm_num [segment_check, lbLoop, Rect.right, Rect.bottom, Prod.ext_iff]

/-- Claim C6: for boxA of size 10 by 10 centered at (0,0) and boxB of size
10 by 10 centered at (5,0), the center delta on x is 5 > 0, the gap
magnitudes are 5 on x and 10 on y, and `static_body_check` resolves along
the x axis with side index 1 at resolved x = boxB.left - boxA.width = -10. -/
theorem static_body_check_overlap :
    ((⟨0, -5, 10, 10⟩ : Rect).centerx - (⟨-5, -5, 10, 10⟩ : Rect).centerx = 5) ∧
    (|(|(((⟨0, -5, 10, 10⟩ : Rect).centerx : ℚ) - ((⟨-5, -5, 10, 10⟩ : Rect).centerx : ℚ))| - 5 - 5)| = 5) ∧
    (|(|(((⟨0, -5, 10, 10⟩ : Rect).centery : ℚ) - ((⟨-5, -5, 10, 10⟩ : Rect).centery : ℚ))| - 5 - 5)| = 10) ∧
    static_body_check ⟨-5, -5, 10, 10⟩ ⟨0, -5, 10, 10⟩ = (true, (-10, -5), 1) ∧
    ((-10 : ℚ) = ((⟨0, -5, 10, 10⟩ : Rect).left : ℚ) - ((⟨-5, -5, 10, 10⟩ : Rect).width : ℚ)) := by
  refine ⟨by decide, by norm_num [Rect.centerx], by norm_num [Rect.centery], ?_, by norm_num⟩
  norm_num [static_body_check, Rect.centerx, Rect.centery, Rect.right, Rect.bottom, Prod.ext_iff]

lemma sum_friction_damped :
    ∑ k ∈ Finset.Icc 1 5, (10 : ℚ) * (1 - (9 / 10) ^ k) = 131441 / 10000 := by
  norm_num [Finset.sum_Icc_succ_top, Finset.Icc_self]

/-- Claim C7: from rest, five ticks of `Player.update` with ["RIGHT"] move
x by the friction-damped sum of 10 * (1 - (9/10)^k) for k = 1..5, i.e.
exactly 13.1441 in the rational model, through velocities 1, 1.9, 2.71,
3.439, 4.0951, and leave y unchanged. -/
theorem five_right_ticks (p : Player) (h : p.vel = ⟨0, 0⟩) :
    ((fun st => Player.update st ["RIGHT"])^[5] p).pos.x - p.pos.x
        = ∑ k ∈ Finset.Icc 1 5, (10 : ℚ) * (1 - (9 / 10) ^ k) ∧
    ((fun st => Player.update st ["RIGHT"])^[5] p).pos.x - p.pos.x = 131441 / 10000 ∧
    ((fun st => Player.update st ["RIGHT"])^[5] p).pos.y = p.pos.y ∧
    ((fun st => Player.update st ["RIGHT"])^[1] p).vel.x = 1 ∧
    ((fun st => Player.update st ["RIGHT"])^[2] p).vel.x = 19 / 10 ∧
    ((fun st => Player.update st ["RIGHT"])^[3] p).vel.x = 271 / 100 ∧
    ((fun st => Player.update st ["RIGHT"])^[4] p).vel.x = 3439 / 1000 ∧
    ((fun st => Player.update st ["RIGHT"])^[5] p).vel.x = 40951 / 10000 := by
  obtain ⟨pos, vel, acc, rect⟩ := p
  obtain ⟨px, py⟩ := pos
  subst h
  norm_num +decide [Function.iterate_succ_apply', Player.update, FRICTION, sum_friction_damped]
  ring_nf

/-- Witness for claim C7 at a concrete resting player. -/
theorem five_right_ticks_witness :
    ((fun st => Player.update st ["RIGHT"])^[5] restingPlayer).pos.x - restingPlayer.pos.x
      = 131441 / 10000 :=
  (five_right_ticks restingPlayer rfl).2.1

/-- Claim C8: a `Player.update` step with zero velocity and an empty action
list leaves the position exactly unchanged. -/
theorem no_input_at_rest (p : Player) (h : p.vel = ⟨0, 0⟩) :
    (p.update []).pos.x = p.pos.x ∧ (p.update []).pos.y = p.pos.y := by
  obtain ⟨pos, vel, acc, rect⟩ := p
  subst h
  norm_num [Player.update, FRICTION]

/-- Witness for claim C8 at a concrete resting player. -/
theorem no_input_at_rest_witness :
    ((restingPlayer.update []).pos.x = restingPlayer.pos.x ∧
     (restingPlayer.update []).pos.y = restingPlayer.pos.y) :=
  no_input_at_rest restingPlayer rfl

/-! ## Framing protocol (src/protocol.py) -/

lemma natDigitsRev_lt (n : ℕ) : ∀ d ∈ natDigitsRev n, d < 10 := by
  induction n using Nat.strong_induction_on with
  | _ n ih =>
    match n with
    | 0 => simp [natDigitsRev]
    | m + 1 =>
      simp only [natDigitsRev, List.mem_cons]
      rintro d (rfl | hd)
      · exact Nat.mod_lt _ (by norm_num)
      · exact ih ((m + 1) / 10) (Nat.div_lt_self (Nat.succ_pos m) (by norm_num)) d hd

lemma natDigitsRev_length_le (k : ℕ) : ∀ n : ℕ, n < 10 ^ k → (natDigitsRev n).length ≤ k := by
  induction k with
  | zero => intro n hn; interval_cases n; simp [natDigitsRev]
  | succ k ih =>
    intro n hn
    match n with
    | 0 => simp [natDigitsRev]
    | m + 1 =>
      simp only [natDigitsRev, List.length_cons]
      have : (m + 1) / 10 < 10 ^ k := by
        rw [Nat.div_lt_iff_lt_mul (by norm_num)]
        calc m + 1 < 10 ^ (k + 1) := hn
        _ = 10 ^ k * 10 := by ring
      exact Nat.succ_le_succ (ih _ this)

lemma natDigitsRev_foldl (n : ℕ) : ∀ a : ℕ,
    (natDigitsRev n).reverse.foldl (fun a d => a * 10 + d) a
      = a * 10 ^ (natDigitsRev n).length + n := by
  induction n using Nat.strong_induction_on with
  | _ n ih =>
    match n with
    | 0 => simp [natDigitsRev]
    | m + 1 =>
      intro a
      rw [natDigitsRev]
      simp only [List.reverse_cons, List.foldl_append, List.length_cons, List.foldl_cons,
        List.foldl_nil]
      rw [ih ((m + 1) / 10) (Nat.div_lt_self (Nat.succ_pos m) (by norm_num))]
      have hd := Nat.div_add_mod (m + 1) 10
      rw [pow_succ]
      ring_nf
      omega

lemma strNat_all_digits (n : ℕ) : ∀ b ∈ strNat n, isDigitB b = true := by
  unfold strNat
  split
  · simp [isDigitB]
  · intro b hb
    simp only [List.mem_map, List.mem_reverse] at hb
    obtain ⟨d, hd, rfl⟩ := hb
    have := natDigitsRev_lt n d hd
    simp [isDigitB]
    omega

lemma strNat_ne_nil (n : ℕ) : strNat n ≠ [] := by
  unfold strNat
  split
  · simp
  · have h1 : natDigitsRev n ≠ [] := by
      match n with
      | 0 => simp_all
      | m + 1 => simp [natDigitsRev]
    simp_all

lemma strNat_length_le (n k : ℕ) (hk : 1 ≤ k) (h : n < 10 ^ k) : (strNat n).length ≤ k := by
  unfold strNat
  split
  · simpa
  · simpa using natDigitsRev_length_le k n h

lemma strNat_foldl (n : ℕ) (a : ℕ) :
    (strNat n).foldl (fun a b => a * 10 + (b - 48)) a = a * 10 ^ (strNat n).length + n := by
  unfold strNat
  split
  · simp; omega
  · rw [List.foldl_map]
    simp only [Nat.add_sub_cancel, List.length_map, List.length_reverse]
    exact natDigitsRev_foldl n a

lemma foldl_replicate_zero (k : ℕ) :
    (List.replicate k 48).foldl (fun a b => a * 10 + (b - 48)) 0 = 0 := by
  induction k with
  | zero => simp
  | succ k ih => simpa [List.replicate_succ]

lemma headerBytes_length (n : ℕ) (h : n < 10 ^ 8) : (headerBytes n).length = 8 := by
  have hle := strNat_length_le n 8 (by norm_num) h
  simp [headerBytes, zfill, LENGTH_HEADER]
  omega

lemma headerBytes_all_digits (n : ℕ) : ∀ b ∈ headerBytes n, isDigitB b = true := by
  intro b hb
  simp only [headerBytes, zfill, List.mem_append, List.mem_replicate] at hb
  rcases hb with ⟨-, rfl⟩ | hb
  · simp [isDigitB]
  · exact strNat_all_digits n b hb

lemma headerBytes_foldl (n : ℕ) :
    (headerBytes n).foldl (fun a b => a * 10 + (b - 48)) 0 = n := by
  simp only [headerBytes, zfill, List.foldl_append, foldl_replicate_zero]
  simpa using strNat_foldl n 0

lemma isSpaceB_of_digit {b : ℕ} (h : isDigitB b = true) : isSpaceB b = false := by
  simp only [isDigitB, Bool.and_eq_true, decide_eq_true_eq] at h
  simp only [isSpaceB, Bool.or_eq_false_iff, beq_eq_false_iff_ne]
  omega

lemma dropWhile_space_of_digits (l : List ℕ) (h : ∀ b ∈ l, isDigitB b = true) :
    l.dropWhile isSpaceB = l := by
  cases l with
  | nil => rfl
  | cons a t =>
    rw [List.dropWhile_cons, isSpaceB_of_digit (h a (by simp))]
    simp

lemma pyStripSpaces_of_digits (l : List ℕ) (h : ∀ b ∈ l, isDigitB b = true) :
    pyStripSpaces l = l := by
  unfold pyStripSpaces
  rw [dropWhile_space_of_digits l h, dropWhile_space_of_digits l.reverse (by simpa using h),
    List.reverse_reverse]

lemma digitsUndTail_of_digits (l : List ℕ) (h : ∀ b ∈ l, isDigitB b = true) :
    digitsUndTail l = true := by
  induction l using digitsUndTail.induct with
  | case1 => rfl
  | case2 b rest ih =>
    have : isDigitB 95 = true := h 95 (by simp)
    simp [isDigitB] at this
  | case3 b rest hb ih =>
    rw [digitsUndTail]
    · simp only [Bool.and_eq_true]
      exact ⟨h b (by simp), ih (fun x hx => h x (by simp [hx]))⟩
    · intro b1 r1 hb95 hr
      have := h b (by simp)
      rw [hb95] at this
      simp [isDigitB] at this

lemma pyInt_digits (s : List ℕ) (h : ∀ b ∈ s, isDigitB b = true) (hne : s ≠ []) :
    pyInt s = some ((s.foldl (fun a b => a * 10 + (b - 48)) 0 : ℕ) : ℤ) := by
  unfold pyInt
  rw [pyStripSpaces_of_digits s h]
  have hval : validNum s = true := by
    match s, hne with
    | b :: t, _ =>
      rw [validNum]
      simp only [Bool.and_eq_true]
      exact ⟨h b (by simp), digitsUndTail_of_digits t (fun x hx => h x (by simp [hx]))⟩
  have hfil : s.filter (fun b => b != 95) = s := by
    rw [List.filter_eq_self]
    intro a ha
    have := h a ha
    simp only [isDigitB, Bool.and_eq_true, decide_eq_true_eq] at this
    simp only [bne_iff_ne, ne_eq]
    omega
  split
  · have : isDigitB 43 = true := h 43 (by simp)
    simp [isDigitB] at this
  · have : isDigitB 45 = true := h 45 (by simp)
    simp [isDigitB] at this
  · simp [parseUInt, hval, numVal, hfil]

lemma pyInt_headerBytes (n : ℕ) (h : n < 10 ^ 8) :
    pyInt (headerBytes n) = some (n : ℤ) := by
  rw [pyInt_digits (headerBytes n) (headerBytes_all_digits n)
      (by have := headerBytes_length n h; intro hnil; simp [hnil] at this),
    headerBytes_foldl n]

lemma utf8EncodeChar_ne_nil (c : ℕ) : utf8EncodeChar c ≠ [] := by
  unfold utf8EncodeChar
  split
  · simp
  split
  · simp
  split
  · simp
  · simp

lemma utf8DecodeStep_encodeChar (c : ℕ) (h : ValidScalar c) (bs : List ℕ) :
    utf8DecodeStep (utf8EncodeChar c ++ bs) = some (c, bs) := by
  rcases Nat.lt_or_ge c 128 with h1 | h1
  · have e1 : utf8EncodeChar c = [c] := by rw [utf8EncodeChar, if_pos h1]
    rw [e1]
    simp only [List.cons_append, List.nil_append]
    rw [utf8DecodeStep.eq_def]
    simp only []
    rw [if_pos h1]
  rcases Nat.lt_or_ge c 2048 with h2 | h2
  · have e1 : utf8EncodeChar c = [192 + c / 64, 128 + c % 64] := by
      rw [utf8EncodeChar, if_neg (by omega), if_pos h2]
    rw [e1]
    simp only [List.cons_append, List.nil_append]
    rw [utf8DecodeStep.eq_def]
    simp only []
    rw [if_neg (by omega), if_neg (by omega), if_pos (by omega)]
    try simp only []
    rw [if_pos (by simp only [isContB, Bool.and_eq_true, decide_eq_true_eq]; omega)]
    have hc : (192 + c / 64 - 192) * 64 + (128 + c % 64 - 128) = c := by omega
    rw [hc]
  rcases Nat.lt_or_ge c 65536 with h3 | h3
  · have hsur : c < 55296 ∨ 57343 < c := by
      rcases h with h' | h'
      · exact Or.inl h'
      · exact Or.inr h'.1
    have e1 : utf8EncodeChar c = [224 + c / 4096, 128 + c / 64 % 64, 128 + c % 64] := by
      rw [utf8EncodeChar, if_neg (by omega), if_neg (by omega), if_pos h3]
    rw [e1]
    simp only [List.cons_append, List.nil_append]
    rw [utf8DecodeStep.eq_def]
    simp only []
    rw [if_neg (by omega), if_neg (by omega), if_neg (by omega), if_pos (by omega)]
    try simp only []
    rw [if_pos (by simp only [isContB, Bool.and_eq_true, decide_eq_true_eq]; omega)]
    have hc : (224 + c / 4096 - 224) * 4096 + (128 + c / 64 % 64 - 128) * 64 + (128 + c % 64 - 128)
        = c := by omega
    simp only [hc]
    rw [if_neg]
    simp only [Bool.or_eq_true, decide_eq_true_eq, Bool.and_eq_true, not_or, not_and, not_lt,
      not_le]
    omega
  · have h4 : c < 1114112 := by
      rcases h with h' | h'
      · omega
      · exact h'.2
    have e1 : utf8EncodeChar c
        = [240 + c / 262144, 128 + c / 4096 % 64, 128 + c / 64 % 64, 128 + c % 64] := by
      rw [utf8EncodeChar, if_neg (by omega), if_neg (by omega), if_neg (by omega)]
    rw [e1]
    simp only [List.cons_append, List.nil_append]
    rw [utf8DecodeStep.eq_def]
    simp only []
    rw [if_neg (by omega), if_neg (by omega), if_neg (by omega), if_neg (by omega),
      if_pos (by omega)]
    try simp only []
    rw [if_pos (by simp only [isContB, Bool.and_eq_true, decide_eq_true_eq]; omega)]
    have hc : (240 + c / 262144 - 240) * 262144 + (128 + c / 4096 % 64 - 128) * 4096
        + (128 + c / 64 % 64 - 128) * 64 + (128 + c % 64 - 128) = c := by omega
    simp only [hc]
    rw [if_neg]
    simp only [Bool.or_eq_true, decide_eq_true_eq, not_or, not_lt, not_le]
    omega

lemma utf8DecodeFuel_encode (s : List ℕ) (h : ∀ c ∈ s, ValidScalar c) :
    ∀ fuel : ℕ, (utf8Encode s).length ≤ fuel → utf8DecodeFuel fuel (utf8Encode s) = some s := by
  induction s with
  | nil => intro fuel _; cases fuel <;> rfl
  | cons c t ih =>
    intro fuel hf
    have hval : ValidScalar c := h c (by simp)
    have hione : 1 ≤ (utf8EncodeChar c).length := by
      have := utf8EncodeChar_ne_nil c
      cases hh : utf8EncodeChar c with
      | nil => exact absurd hh this
      | cons a b => simp
    have henc : utf8Encode (c :: t) = utf8EncodeChar c ++ utf8Encode t := by rw [utf8Encode]
    obtain ⟨hd, tl, hht⟩ : ∃ hd tl, utf8EncodeChar c = hd :: tl := by
      cases hh : utf8EncodeChar c with
      | nil => exact absurd hh (utf8EncodeChar_ne_nil c)
      | cons a b => exact ⟨a, b, rfl⟩
    obtain ⟨f, rfl⟩ : ∃ f, fuel = f + 1 := by
      have hlen : 1 ≤ (utf8Encode (c :: t)).length := by
        rw [henc, List.length_append]
        omega
      exact ⟨fuel - 1, by omega⟩
    rw [henc, hht, List.cons_append, utf8DecodeFuel]
    have hstep := utf8DecodeStep_encodeChar c hval (utf8Encode t)
    rw [hht, List.cons_append] at hstep
    rw [hstep]
    simp only []
    have htl : (utf8Encode t).length ≤ f := by
      rw [henc, List.length_append] at hf
      omega
    rw [ih (fun x hx => h x (by simp [hx])) f htl]
    rfl

lemma utf8Decode_encode (s : List ℕ) (h : ∀ c ∈ s, ValidScalar c) :
    utf8Decode (utf8Encode s) = some s :=
  utf8DecodeFuel_encode s h _ le_rfl

lemma utf8Encode_ascii (s : List ℕ) (h : ∀ c ∈ s, c < 128) : utf8Encode s = s := by
  induction s with
  | nil => rfl
  | cons c t ih =>
    rw [utf8Encode, utf8EncodeChar, if_pos (h c (by simp))]
    rw [ih (fun x hx => h x (by simp [hx]))]
    rfl

lemma digit_lt_128 {b : ℕ} (h : isDigitB b = true) : b < 128 := by
  simp only [isDigitB, Bool.and_eq_true, decide_eq_true_eq] at h
  omega

/-- Claim C1: for any payload whose byte length n is at most 99999999,
`send_message` writes exactly an 8-byte ASCII decimal zero-padded header
whose value is n, followed by the n payload bytes, and `receive_message`
on a stream holding exactly those bytes returns the original payload. -/
theorem framing_round_trip (s : List ℕ) (hval : ∀ c ∈ s, ValidScalar c)
    (hlen : (utf8Encode s).length ≤ 99999999) :
    send_message s = headerBytes (utf8Encode s).length ++ utf8Encode s ∧
    (headerBytes (utf8Encode s).length).length = 8 ∧
    (∀ b ∈ headerBytes (utf8Encode s).length, isDigitB b = true) ∧
    pyInt (headerBytes (utf8Encode s).length) = some (((utf8Encode s).length : ℕ) : ℤ) ∧
    receive_message ⟨send_message s, false⟩ = .ok s := by
  have hn8 : (utf8Encode s).length < 10 ^ 8 := by omega
  have hdig := headerBytes_all_digits (utf8Encode s).length
  have hhl := headerBytes_length (utf8Encode s).length hn8
  have hsend : send_message s = headerBytes (utf8Encode s).length ++ utf8Encode s := by
    rw [send_message]
    congr 1
    exact utf8Encode_ascii _ (fun c hc => digit_lt_128 (hdig c hc))
  refine ⟨hsend, hhl, hdig, pyInt_headerBytes _ hn8, ?_⟩
  rw [hsend]
  have hrecv1 : Chan.recv ⟨headerBytes (utf8Encode s).length ++ utf8Encode s, false⟩ 8
      = .ok (headerBytes (utf8Encode s).length, ⟨utf8Encode s, false⟩) := by
    rw [Chan.recv, if_neg (by norm_num), if_neg (by simp)]
    rw [show ((8 : ℤ).toNat = 8) from rfl, ← hhl, List.take_left, List.drop_left]
  have hrecv2 : Chan.recv ⟨utf8Encode s, false⟩ (((utf8Encode s).length : ℕ) : ℤ)
      = .ok (utf8Encode s, ⟨[], false⟩) := by
    rw [Chan.recv, if_neg (by omega), if_neg (by simp)]
    rw [Int.toNat_natCast, List.take_length, List.drop_length]
  rw [receive_message]
  rw [hrecv1]
  simp only []
  rw [pyInt_headerBytes _ hn8]
  simp only []
  rw [hrecv2]
  simp only []
  rw [utf8Decode_encode s hval]

/-- Witness for claim C1 on the payload "hi". -/
theorem framing_round_trip_witness :
    (∀ c ∈ [104, 105], ValidScalar c) ∧
    (utf8Encode [104, 105]).length ≤ 99999999 ∧
    receive_message ⟨send_message [104, 105], false⟩ = .ok [104, 105] :=
  ⟨by decide, by decide,
    (framing_round_trip [104, 105] (by decide) (by decide)).2.2.2.2⟩

/-- Claim C5: one `get_input` call removes from the roster exactly the
identities whose buffered message contains "QUIT", acknowledging and
closing each of those connections in the same call; identities with a
buffered non-quit message map to that intent list, identities with nothing
buffered map to the empty list, and all surviving entries are unchanged. -/
theorem get_input_spec (roster : List (ℕ × Option (List String))) :
    (get_input roster).1 = roster.filter (fun e => !(hasQuitMsg e.2)) ∧
    (get_input roster).2.2 = (roster.filter (fun e => hasQuitMsg e.2)).map
        (fun e => (e.1, send_message [81, 85, 73, 84])) ∧
    (get_input roster).2.1 = (roster.filter (fun e => !(hasQuitMsg e.2))).map
        (fun e => (e.1, e.2.getD [])) := by
  induction roster with
  | nil => exact ⟨rfl, rfl, rfl⟩
  | cons e rest ih =>
    obtain ⟨cid, buf⟩ := e
    match buf with
    | none =>
      have hu : get_input ((cid, none) :: rest)
          = ((cid, none) :: (get_input rest).1, (cid, ([] : List String)) :: (get_input rest).2.1,
             (get_input rest).2.2) := rfl
      refine ⟨?_, ?_, ?_⟩ <;>
        simp [hu, hasQuitMsg, ih.1, ih.2.1, ih.2.2]
    | some m =>
      have hu : get_input ((cid, some m) :: rest)
          = if "QUIT" ∈ m then
              ((get_input rest).1, (get_input rest).2.1,
               (cid, send_message [81, 85, 73, 84]) :: (get_input rest).2.2)
            else
              ((cid, some m) :: (get_input rest).1, (cid, m) :: (get_input rest).2.1,
               (get_input rest).2.2) := rfl
      by_cases hq : "QUIT" ∈ m
      · rw [hu, if_pos hq]
        refine ⟨?_, ?_, ?_⟩ <;>
          simp [hasQuitMsg, hq, ih.1, ih.2.1, ih.2.2]
      · rw [hu, if_neg hq]
        refine ⟨?_, ?_, ?_⟩ <;>
          simp [hasQuitMsg, hq, ih.1, ih.2.1, ih.2.2]

/-- Claim C4, failing input: on a stream that delivers the valid header
"00000005" and then a connection reset, `receive_message` propagates
`ConnectionResetError` instead of returning the DISCONNECT signal; a reset
before the header, a non-digit header, and a negative header are all
caught and yield the DISCONNECT signal. -/
theorem receive_message_reset_mid_read :
    receive_message ⟨[48, 48, 48, 48, 48, 48, 48, 53], true⟩ = .error .connectionReset ∧
    receive_message ⟨[], true⟩ = .ok QUIT_SIGNAL ∧
    receive_message ⟨[88, 88, 88, 88, 88, 88, 88, 88], false⟩ = .ok QUIT_SIGNAL ∧
    receive_message ⟨[45, 48, 48, 48, 48, 48, 48, 49], false⟩ = .ok QUIT_SIGNAL := by
  refine ⟨rfl, rfl, rfl, rfl⟩

/-- Claim C10: the DISCONNECT signal is exactly the 8-character string
returned by `json.dumps` on the one-element list "QUIT" — byte-identical
to a client's graceful quit payload — so the two are indistinguishable to
any caller, and `get_input` on an identity whose buffered message is
["QUIT"] acknowledges it, closes it, and removes it from the roster. -/
theorem quit_signal_indistinguishable :
    QUIT_SIGNAL = jsonDumpsStrList [[81, 85, 73, 84]] ∧
    QUIT_SIGNAL.length = 8 ∧
    receive_message ⟨[], true⟩ = .ok QUIT_SIGNAL ∧
    receive_message ⟨[65, 66, 67, 68, 69, 70, 71, 72], false⟩ = .ok QUIT_SIGNAL ∧
    (∀ (cid : ℕ) (rest : List (ℕ × Option (List String))),
      get_input ((cid, some ["QUIT"]) :: rest)
        = ((get_input rest).1, (get_input rest).2.1,
           (cid, send_message [81, 85, 73, 84]) :: (get_input rest).2.2)) := by
  refine ⟨rfl, rfl, rfl, rfl, ?_⟩
  intro cid rest
  rfl

/-! ## Identity color (src/server.py) -/

lemma isHexDigitB_hexChar {d : ℕ} (h : d < 16) : isHexDigitB (hexChar d) = true := by
  unfold hexChar isHexDigitB
  split_ifs <;> simp <;> omega

lemma hexVal_le {b : ℕ} (h : isHexDigitB b = true) : hexVal b ≤ 15 := by
  simp only [isHexDigitB, Bool.or_eq_true, Bool.and_eq_true, decide_eq_true_eq] at h
  unfold hexVal
  split_ifs <;> omega

lemma isSpaceB_of_hex {b : ℕ} (h : isHexDigitB b = true) : isSpaceB b = false := by
  simp only [isHexDigitB, Bool.or_eq_true, Bool.and_eq_true, decide_eq_true_eq] at h
  simp only [isSpaceB, Bool.or_eq_false_iff, beq_eq_false_iff_ne]
  omega

lemma dropWhile_space_eq_self (l : List ℕ) (h : ∀ b ∈ l, isSpaceB b = false) :
    l.dropWhile isSpaceB = l := by
  cases l with
  | nil => rfl
  | cons a t =>
    rw [List.dropWhile_cons, h a (by simp)]
    simp

lemma pyStripSpaces_eq_self (l : List ℕ) (h : ∀ b ∈ l, isSpaceB b = false) :
    pyStripSpaces l = l := by
  unfold pyStripSpaces
  rw [dropWhile_space_eq_self l h, dropWhile_space_eq_self l.reverse (by simpa using h),
    List.reverse_reverse]

lemma hexDigitsRev_all (n : ℕ) : ∀ b ∈ hexDigitsRev n, isHexDigitB b = true := by
  induction n using Nat.strong_induction_on with
  | _ n ih =>
    match n with
    | 0 => simp [hexDigitsRev]
    | m + 1 =>
      simp only [hexDigitsRev, List.mem_cons]
      rintro b (rfl | hb)
      · exact isHexDigitB_hexChar (Nat.mod_lt _ (by norm_num))
      · exact ih ((m + 1) / 16) (Nat.div_lt_self (Nat.succ_pos m) (by norm_num)) b hb

lemma hexDigitsRev_length_ge (k : ℕ) : ∀ n : ℕ, 16 ^ k ≤ n → k + 1 ≤ (hexDigitsRev n).length := by
  induction k with
  | zero =>
    intro n hn
    match n with
    | 0 => exact absurd hn (by norm_num)
    | m + 1 => simp [hexDigitsRev]
  | succ k ih =>
    intro n hn
    have h16 : 1 ≤ 16 ^ (k + 1) := Nat.one_le_pow _ _ (by norm_num)
    match n with
    | 0 => exact absurd hn (by omega)
    | m + 1 =>
      simp only [hexDigitsRev, List.length_cons]
      have : 16 ^ k ≤ (m + 1) / 16 := by
        rw [Nat.le_div_iff_mul_le (by norm_num)]
        calc 16 ^ k * 16 = 16 ^ (k + 1) := by ring
        _ ≤ m + 1 := hn
      exact Nat.succ_le_succ (ih _ this)

lemma int16_two_hex {a b : ℕ} (ha : isHexDigitB a = true) (hb : isHexDigitB b = true) :
    int16 [a, b] = some (((16 * hexVal a + hexVal b : ℕ) : ℤ)) := by
  have hstrip : pyStripSpaces [a, b] = [a, b] := by
    refine pyStripSpaces_eq_self _ ?_
    intro x hx
    rcases List.mem_cons.mp hx with rfl | hx2
    · exact isSpaceB_of_hex ha
    · rw [List.mem_singleton.mp hx2]
      exact isSpaceB_of_hex hb
  have ha' := ha
  have hb' := hb
  simp only [isHexDigitB, Bool.or_eq_true, Bool.and_eq_true, decide_eq_true_eq] at ha' hb'
  have hpre : strip0x [a, b] = [a, b] := by
    unfold strip0x
    split
    · rename_i heq
      simp only [List.cons.injEq] at heq
      obtain ⟨-, h2, -⟩ := heq
      omega
    · rename_i heq
      simp only [List.cons.injEq] at heq
      obtain ⟨-, h2, -⟩ := heq
      omega
    · rfl
  unfold int16
  rw [hstrip]
  split
  · rename_i heq
    simp only [List.cons.injEq] at heq
    obtain ⟨h1, -⟩ := heq
    omega
  · rename_i heq
    simp only [List.cons.injEq] at heq
    obtain ⟨h1, -⟩ := heq
    omega
  · rw [hpre, parseHexDigits, if_pos (by simp [ha, hb])]
    simp only [List.foldl_cons, List.foldl_nil, Option.map_some]
    norm_num
    ring

lemma strToRGB_in_range (v : ℤ) (hv : 16 ^ 5 ≤ v.natAbs) :
    ∃ r g b : ℤ, strToRGB v = some (r, g, b) ∧
      0 ≤ r ∧ r ≤ 255 ∧ 0 ≤ g ∧ g ≤ 255 ∧ 0 ≤ b ∧ b ≤ 255 := by
  have hne : ¬ v.natAbs = 0 := by
    have : (1 : ℕ) ≤ 16 ^ 5 := Nat.one_le_pow _ _ (by norm_num)
    omega
  have hL : 6 ≤ ((hexDigitsRev v.natAbs).reverse).length := by
    simpa using hexDigitsRev_length_ge 5 v.natAbs hv
  have hDall : ∀ b ∈ (hexDigitsRev v.natAbs).reverse, isHexDigitB b = true := by
    intro b hb
    exact hexDigitsRev_all v.natAbs b (List.mem_reverse.mp hb)
  have hhex : pyHex v = ((if v < 0 then [45] else []) ++ [48, 120])
      ++ (hexDigitsRev v.natAbs).reverse := by
    rw [pyHex, if_neg hne]
  have hplen : 2 ≤ ((if v < 0 then [45] else ([] : List ℕ)) ++ [48, 120]).length := by
    split <;> simp
  have hlen : (pyHex v).length
      = ((if v < 0 then [45] else ([] : List ℕ)) ++ [48, 120]).length
        + ((hexDigitsRev v.natAbs).reverse).length := by
    rw [hhex, List.length_append]
  have hidx2 : pyIndex (pyHex v).length (-2)
      = ((if v < 0 then [45] else ([] : List ℕ)) ++ [48, 120]).length
        + (((hexDigitsRev v.natAbs).reverse).length - 2) := by
    rw [hlen]
    unfold pyIndex
    rw [if_pos (by norm_num)]
    omega
  have hidx4 : pyIndex (pyHex v).length (-4)
      = ((if v < 0 then [45] else ([] : List ℕ)) ++ [48, 120]).length
        + (((hexDigitsRev v.natAbs).reverse).length - 4) := by
    rw [hlen]
    unfold pyIndex
    rw [if_pos (by norm_num)]
    omega
  have hidx6 : pyIndex (pyHex v).length (-6)
      = ((if v < 0 then [45] else ([] : List ℕ)) ++ [48, 120]).length
        + (((hexDigitsRev v.natAbs).reverse).length - 6) := by
    rw [hlen]
    unfold pyIndex
    rw [if_pos (by norm_num)]
    omega
  have hs1 : pySliceFrom (pyHex v) (-2)
      = ((hexDigitsRev v.natAbs).reverse).drop (((hexDigitsRev v.natAbs).reverse).length - 2) := by
    rw [pySliceFrom, hidx2, hhex, List.drop_append]
  have hs2 : pySlice (pyHex v) (-4) (-2)
      = (((hexDigitsRev v.natAbs).reverse).take (((hexDigitsRev v.natAbs).reverse).length - 2)).drop
          (((hexDigitsRev v.natAbs).reverse).length - 4) := by
    rw [pySlice, hidx2, hidx4, hhex, List.take_append, List.drop_append]
  have hs3 : pySlice (pyHex v) (-6) (-4)
      = (((hexDigitsRev v.natAbs).reverse).take (((hexDigitsRev v.natAbs).reverse).length - 4)).drop
          (((hexDigitsRev v.natAbs).reverse).length - 6) := by
    rw [pySlice, hidx4, hidx6, hhex, List.take_append, List.drop_append]
  obtain ⟨a1, b1, he1⟩ : ∃ a b, pySliceFrom (pyHex v) (-2) = [a, b] := by
    rw [← List.length_eq_two, hs1, List.length_drop]
    omega
  obtain ⟨a2, b2, he2⟩ : ∃ a b, pySlice (pyHex v) (-4) (-2) = [a, b] := by
    rw [← List.length_eq_two, hs2, List.length_drop, List.length_take]
    omega
  obtain ⟨a3, b3, he3⟩ : ∃ a b, pySlice (pyHex v) (-6) (-4) = [a, b] := by
    rw [← List.length_eq_two, hs3, List.length_drop, List.length_take]
    omega
  have hmem1 : ∀ x ∈ [a1, b1], isHexDigitB x = true := by
    intro x hx
    rw [← he1, hs1] at hx
    exact hDall x (List.mem_of_mem_drop hx)
  have hmem2 : ∀ x ∈ [a2, b2], isHexDigitB x = true := by
    intro x hx
    rw [← he2, hs2] at hx
    exact hDall x (List.mem_of_mem_take (List.mem_of_mem_drop hx))
  have hmem3 : ∀ x ∈ [a3, b3], isHexDigitB x = true := by
    intro x hx
    rw [← he3, hs3] at hx
    exact hDall x (List.mem_of_mem_take (List.mem_of_mem_drop hx))
  have h1 : int16 (pySliceFrom (pyHex v) (-2))
      = some (((16 * hexVal a1 + hexVal b1 : ℕ) : ℤ)) := by
    rw [he1]
    exact int16_two_hex (hmem1 a1 (by simp)) (hmem1 b1 (by simp))
  have h2 : int16 (pySlice (pyHex v) (-4) (-2))
      = some (((16 * hexVal a2 + hexVal b2 : ℕ) : ℤ)) := by
    rw [he2]
    exact int16_two_hex (hmem2 a2 (by simp)) (hmem2 b2 (by simp))
  have h3 : int16 (pySlice (pyHex v) (-6) (-4))
      = some (((16 * hexVal a3 + hexVal b3 : ℕ) : ℤ)) := by
    rw [he3]
    exact int16_two_hex (hmem3 a3 (by simp)) (hmem3 b3 (by simp))
  refine ⟨((16 * hexVal a1 + hexVal b1 : ℕ) : ℤ), ((16 * hexVal a2 + hexVal b2 : ℕ) : ℤ),
    ((16 * hexVal a3 + hexVal b3 : ℕ) : ℤ), ?_, ?_, ?_, ?_, ?_, ?_, ?_⟩
  · unfold strToRGB
    simp only []
    rw [h1, h2, h3]
  · positivity
  · have := hexVal_le (hmem1 a1 (by simp))
    have := hexVal_le (hmem1 b1 (by simp))
    have hle : (16 * hexVal a1 + hexVal b1 : ℕ) ≤ 255 := by omega
    exact_mod_cast hle
  · positivity
  · have := hexVal_le (hmem2 a2 (by simp))
    have := hexVal_le (hmem2 b2 (by simp))
    have hle : (16 * hexVal a2 + hexVal b2 : ℕ) ≤ 255 := by omega
    exact_mod_cast hle
  · positivity
  · have := hexVal_le (hmem3 a3 (by simp))
    have := hexVal_le (hmem3 b3 (by simp))
    have hle : (16 * hexVal a3 + hexVal b3 : ℕ) ≤ 255 := by omega
    exact_mod_cast hle

/-- Claim C9, amended: with the process string hash modelled as an opaque
function, the identity-to-color mapping is deterministic, and whenever the
hash magnitude is at least 16^5 (six hex digits) each of the three RGB
components exists and lies in 0..255. -/
theorem strToRGB_deterministic_and_in_range (hashFn : List ℕ → ℤ) (s : List ℕ) :
    strToRGBofId hashFn s = strToRGBofId hashFn s ∧
    (16 ^ 5 ≤ (hashFn s).natAbs →
      ∃ r g b : ℤ, strToRGBofId hashFn s = some (r, g, b) ∧
        0 ≤ r ∧ r ≤ 255 ∧ 0 ≤ g ∧ g ≤ 255 ∧ 0 ≤ b ∧ b ≤ 255) :=
  ⟨rfl, fun hv => strToRGB_in_range (hashFn s) hv⟩

/-- Witness for claim C9 at a concrete hash value 123456789. -/
theorem strToRGB_deterministic_and_in_range_witness :
    16 ^ 5 ≤ ((123456789 : ℤ)).natAbs ∧
    (∃ r g b : ℤ, strToRGBofId (fun _ => 123456789) [] = some (r, g, b) ∧
      0 ≤ r ∧ r ≤ 255 ∧ 0 ≤ g ∧ g ≤ 255 ∧ 0 ≤ b ∧ b ≤ 255) :=
  ⟨by decide, (strToRGB_deterministic_and_in_range (fun _ => 123456789) []).2 (by decide)⟩

/-- Claim C9, counterexample: for a hash value of 0 (the CPython hash of
the empty string) the hex string is "0x0", the slice for the red component
captures the character x, and `strToRGB` raises ValueError instead of
returning components in 0..255. -/
theorem strToRGB_small_hash_fails :
    strToRGBofId (fun _ => 0) [] = none := by rfl
